import Mathlib

/-!
# Vouchy ledger storage subsystem — formal model

Shallow embedding of the ledger storage layer of `src/bot.py`:

* `JsonStorage` (File Backend): an in-memory dict `{str(user_id): {"points": int,
  "total_vouches": int}}` mirrored to a JSON snapshot file.  The snapshot write
  is synchronous and total, so the post-mutation in-memory state *is* the
  persisted state; the model therefore carries the dict as the whole state.
* `PostgresStorage` (Relational Backend): one table `vouches(user_id, points,
  total_vouches)`, mutated through single upsert statements.  The table is
  modelled as a list of rows (Postgres' primary key makes `user_id` unique).
* `_load_legacy_json_for_import` and `JsonStorage.init`, which normalize
  legacy snapshot shapes.

Python `int` values are modelled as `Int`.  JSON documents are modelled by
`JValue` (floats are not modelled; they appear in none of the examined
behaviours).  Python exceptions are modelled by `Option`: `none` means the
operation raised.
-/

namespace Vouchy

/-- A parsed JSON document, as returned by `json.loads`.  Object fields are
kept in insertion order, mirroring Python dicts; `json.loads` collapses
duplicate keys, but the model does not need to assume distinctness. -/
inductive JValue where
  | jnull
  | jbool (b : Bool)
  | jint (n : Int)
  | jstr (s : String)
  | jarr (elems : List JValue)
  | jobj (fields : List (String × JValue))

/-- Whether a JSON value is an object (a Python `dict`). -/
def JValue.isObj : JValue → Bool
  | .jobj _ => true
  | _ => false

/-- Accumulating decimal parser: models the digit-consuming core of Python's
`int(str)`.  `none` models a raised `ValueError`.  (48 is the code point of
the zero digit.) -/
def digitsToNatAux : Nat → List Char → Option Nat
  | acc, [] => some acc
  | acc, c :: cs =>
    if c.isDigit then digitsToNatAux (acc * 10 + (c.toNat - 48)) cs else none

/-- A nonempty all-digit string evaluates to a natural number; anything else
raises.  -/
def digitsToNat (cs : List Char) : Option Nat :=
  if cs.isEmpty then none else digitsToNatAux 0 cs

/-- Model of Python `int(s)` on a string: optional sign followed by decimal
digits.  (Python additionally strips whitespace and allows underscores
between digits; those inputs do not occur in the snapshots this model is
used on.) -/
def pyParseInt (s : String) : Option Int :=
  match s.toList with
  | [] => none
  | c :: cs =>
    if c = '-' then (digitsToNat cs).map (fun n => -(n : Int))
    else if c = '+' then (digitsToNat cs).map (fun n => (n : Int))
    else (digitsToNat (c :: cs)).map (fun n => (n : Int))

/-- Model of Python `int(v)` on a JSON value.  `isinstance(True, int)` holds
in Python, so booleans convert as 1/0; strings are parsed; `null`, arrays and
objects raise `TypeError` (`none`). -/
def pyIntOfJson : JValue → Option Int
  | .jint n => some n
  | .jbool b => some (if b then 1 else 0)
  | .jstr s => pyParseInt s
  | _ => none

/-- Python `dict.get(k)`: the value of the first binding of `k`.  (Dicts hold
each key once; on such lists `find?` is exact.) -/
def dictGet {α : Type} (m : List (String × α)) (k : String) : Option α :=
  (m.find? (fun p => p.1 == k)).map (fun p => p.2)

/-- Python `d[k] = v`: overwrite the binding in place if the key exists
(keeping its position, as dicts preserve insertion order), otherwise append
the new binding. -/
def dictSet {α : Type} (m : List (String × α)) (k : String) (v : α) : List (String × α) :=
  if m.any (fun p => p.1 == k) then
    m.map (fun p => if p.1 == k then (k, v) else p)
  else m ++ [(k, v)]

/-- `int(v.get("points", v.get("score", 0)))` from the two legacy loaders:
the `points` field, else the alias `score`, else 0.  `none` models the
`int()` conversion raising. -/
def legacyPoints (fields : List (String × JValue)) : Option Int :=
  match dictGet fields "points" with
  | some v => pyIntOfJson v
  | none =>
    match dictGet fields "score" with
    | some v => pyIntOfJson v
    | none => some 0

/-- `int(v.get("total_vouches", 0))` from the two legacy loaders. -/
def legacyVouches (fields : List (String × JValue)) : Option Int :=
  match dictGet fields "total_vouches" with
  | some v => pyIntOfJson v
  | none => some 0

/-- The durable snapshot file as seen by the loaders: absent, present but not
valid JSON (so `json.loads` raises), or present and parsed. -/
inductive FileContent where
  | missing
  | unparseable
  | parsed (v : JValue)

/-- The `for k, v in loaded.items()` loop of `_load_legacy_json_for_import`
(src/bot.py:62-72).  An unparseable key hits the inner `except: continue`;
a value that is neither an int nor a dict falls through and is skipped; a
dict value whose field conversion raises propagates the exception (`none`)
out of the loop. -/
def loadRowsAux : List (String × JValue) → Option (List (Int × Int × Int))
  | [] => some []
  | (k, v) :: rest =>
    match pyParseInt k with
    | none => loadRowsAux rest
    | some uid =>
      match v with
      | .jint n => (loadRowsAux rest).map (fun rows => (uid, n, 0) :: rows)
      | .jbool b => (loadRowsAux rest).map (fun rows => (uid, (if b then 1 else 0), 0) :: rows)
      | .jobj fs =>
        match legacyPoints fs, legacyVouches fs with
        | some p, some tv => (loadRowsAux rest).map (fun rows => (uid, p, tv) :: rows)
        | _, _ => none
      | _ => loadRowsAux rest

/-- `_load_legacy_json_for_import` (src/bot.py:51-75).  The whole body is
wrapped in `try: ... except Exception: return []`, so an exception escaping
the loop yields `[]`; a missing file or a non-dict top level also yield
`[]`. -/
def load_legacy_json_for_import (file : FileContent) : List (Int × Int × Int) :=
  match file with
  | .missing => []
  | .unparseable => []
  | .parsed (.jobj fields) => (loadRowsAux fields).getD []
  | .parsed _ => []

/-- One stored ledger entry `{"points": int, "total_vouches": int}`.  Every
write site of `JsonStorage` stores both fields, so the entry is a total
record. -/
structure Entry where
  points : Int
  total_vouches : Int
  deriving DecidableEq

/-- The in-memory (and, after each mutation, on-disk) state of `JsonStorage`:
`{str(user_id): entry}` in insertion order. -/
abbrev Ledger := List (String × Entry)

/-- The migration loop of `JsonStorage.init` (src/bot.py:124-133): ints (and
booleans) become `{"points": v, "total_vouches": 0}`, dicts are normalized
through the `points`/`score`/`total_vouches` fields, anything else is
dropped.  A raising `int()` conversion propagates out (`none`). -/
def initMigrate : List (String × JValue) → Ledger → Option Ledger
  | [], acc => some acc
  | (k, v) :: rest, acc =>
    match v with
    | .jint n => initMigrate rest (dictSet acc k ⟨n, 0⟩)
    | .jbool b => initMigrate rest (dictSet acc k ⟨(if b then 1 else 0), 0⟩)
    | .jobj fs =>
      match legacyPoints fs, legacyVouches fs with
      | some p, some tv => initMigrate rest (dictSet acc k ⟨p, tv⟩)
      | _, _ => none
    | _ => initMigrate rest acc

/-- `JsonStorage.init` (src/bot.py:119-139): missing file, unparseable file,
non-dict top level, and any exception during migration all leave an empty
ledger. -/
def JsonStorage.init (file : FileContent) : Ledger :=
  match file with
  | .missing => []
  | .unparseable => []
  | .parsed (.jobj fields) => (initMigrate fields []).getD []
  | .parsed _ => []

/-- `JsonStorage.get_points` (src/bot.py:141-145). -/
def JsonStorage.get_points (st : Ledger) (user_id : Int) : Int :=
  match dictGet st (toString user_id) with
  | none => 0
  | some e => e.points

/-- `JsonStorage.get_stats` (src/bot.py:147-151). -/
def JsonStorage.get_stats (st : Ledger) (user_id : Int) : Int × Int :=
  match dictGet st (toString user_id) with
  | none => (0, 0)
  | some e => (e.points, e.total_vouches)

/-- `JsonStorage.add_points` (src/bot.py:153-164).  The write of the snapshot
file is total, so the returned ledger is both the in-memory and the
persisted state. -/
def JsonStorage.add_points (st : Ledger) (user_id : Int) (delta : Int) : Ledger × Int :=
  let uid := toString user_id
  let entry := (dictGet st uid).getD ⟨0, 0⟩
  let new_total := entry.points + delta
  let new_total := if new_total < 0 then 0 else new_total
  (dictSet st uid { entry with points := new_total }, new_total)

/-- `JsonStorage.add_vouch` (src/bot.py:166-181). -/
def JsonStorage.add_vouch (st : Ledger) (user_id : Int) (points_delta : Int)
    (vouches_delta : Int := 1) : Ledger × (Int × Int) :=
  let uid := toString user_id
  let entry := (dictGet st uid).getD ⟨0, 0⟩
  let new_points := entry.points + points_delta
  let new_points := if new_points < 0 then 0 else new_points
  let new_vouches := entry.total_vouches + vouches_delta
  let new_vouches := if new_vouches < 0 then 0 else new_vouches
  (dictSet st uid ⟨new_points, new_vouches⟩, (new_points, new_vouches))

/-- Ordering used by `sorted(..., key=lambda item: points, reverse=True)`:
`a` may come before `b` when `b`'s points do not exceed `a`'s.  Python's
`sorted` is a stable sort, and a stable sort's output is uniquely determined
by the ordering, so the stable `List.insertionSort` embeds it exactly. -/
def pointsDescRel (a b : String × Entry) : Prop :=
  b.2.points ≤ a.2.points

instance : DecidableRel pointsDescRel :=
  fun _ b => Int.decLe b.2.points _

instance : IsTotal (String × Entry) pointsDescRel :=
  ⟨fun a b => Int.le_total b.2.points a.2.points⟩

instance : IsTrans (String × Entry) pointsDescRel :=
  ⟨fun _ _ _ hab hbc => Int.le_trans hbc hab⟩

/-- The comprehension `[(int(uid), int(obj.get("points", 0))) for uid, obj in
items]` closing `JsonStorage.top`; `int(uid)` raises (`none`) on a key that
is not a decimal numeral. -/
def topRowsAux : List (String × Entry) → Option (List (Int × Int))
  | [] => some []
  | p :: rest =>
    match pyParseInt p.1 with
    | none => none
    | some uid => (topRowsAux rest).map (fun l => (uid, p.2.points) :: l)

/-- Python slice `l[:k]`, including the negative-index convention. -/
def pyTake {α : Type} (l : List α) (k : Int) : List α :=
  l.take (if k < 0 then ((l.length : Int) + k).toNat else k.toNat)

/-- `JsonStorage.top` (src/bot.py:183-190): sort by points descending (stable),
slice the first `limit`, then convert keys back to ints. -/
def JsonStorage.top (st : Ledger) (limit : Int := 10) : Option (List (Int × Int)) :=
  topRowsAux (pyTake (List.insertionSort pointsDescRel st) limit)

/-- One row of the `vouches` table. -/
structure PgRow where
  user_id : Int
  points : Int
  total_vouches : Int
  deriving DecidableEq

/-- The `vouches` table.  The primary key on `user_id` keeps row ids unique;
the list order stands for the backend's incidental row order. -/
abbrev PgTable := List PgRow

/-- `select ... where user_id = $1` — the row for a user, if any. -/
def pgFind (s : PgTable) (u : Int) : Option PgRow :=
  s.find? (fun q => q.user_id == u)

/-- `PostgresStorage.get_points` (src/bot.py:219-225). -/
def PostgresStorage.get_points (s : PgTable) (user_id : Int) : Int :=
  match pgFind s user_id with
  | some q => q.points
  | none => 0

/-- `PostgresStorage.get_stats` (src/bot.py:227-236). -/
def PostgresStorage.get_stats (s : PgTable) (user_id : Int) : Int × Int :=
  match pgFind s user_id with
  | some q => (q.points, q.total_vouches)
  | none => (0, 0)

/-- `PostgresStorage.add_points` (src/bot.py:238-251): `insert into vouches as
v(user_id, points) values($1, 0) on conflict (user_id) do update set points =
greatest(0, v.points + $2) returning points`.  On conflict the row is updated
in place; with no conflict the *zero-valued* row is inserted (the
`total_vouches` column takes its default 0) and `returning` reports its
points, 0 — the delta is not applied. -/
def PostgresStorage.add_points (s : PgTable) (user_id : Int) (delta : Int) : PgTable × Int :=
  match pgFind s user_id with
  | some q =>
    let newp := max 0 (q.points + delta)
    (s.map (fun r => if r.user_id == user_id then { r with points := newp } else r), newp)
  | none => (s ++ [⟨user_id, 0, 0⟩], 0)

/-- `PostgresStorage.add_vouch` (src/bot.py:253-268): same upsert pattern over
both counters, `values($1, 0, 0)` on absence. -/
def PostgresStorage.add_vouch (s : PgTable) (user_id : Int) (points_delta : Int)
    (vouches_delta : Int := 1) : PgTable × (Int × Int) :=
  match pgFind s user_id with
  | some q =>
    let newp := max 0 (q.points + points_delta)
    let newv := max 0 (q.total_vouches + vouches_delta)
    (s.map (fun r => if r.user_id == user_id then ⟨user_id, newp, newv⟩ else r), (newp, newv))
  | none => (s ++ [⟨user_id, 0, 0⟩], (0, 0))

/-- `PostgresStorage.count_rows` (src/bot.py:270-274). -/
def PostgresStorage.count_rows (s : PgTable) : Int :=
  s.length

/-- One iteration of the `bulk_upsert` loop: `insert ... on conflict (user_id)
do update set points = excluded.points, total_vouches =
excluded.total_vouches` — pure overwrite keyed by `user_id`. -/
def pgUpsertRow (s : PgTable) (row : Int × Int × Int) : PgTable :=
  match pgFind s row.1 with
  | some _ => s.map (fun r => if r.user_id == row.1 then ⟨row.1, row.2.1, row.2.2⟩ else r)
  | none => s ++ [⟨row.1, row.2.1, row.2.2⟩]

/-- `PostgresStorage.bulk_upsert` (src/bot.py:276-295): all rows upserted in
one transaction; the empty-list early return coincides with the empty fold. -/
def PostgresStorage.bulk_upsert (s : PgTable) (rows : List (Int × Int × Int)) : PgTable :=
  rows.foldl pgUpsertRow s

/-- Row ordering of `order by points desc` (tie order is left to the backend;
the model resolves it by the stable sort over the incidental row order). -/
def pgPointsDescRel (a b : PgRow) : Prop :=
  b.points ≤ a.points

instance : DecidableRel pgPointsDescRel :=
  fun _ b => Int.decLe b.points _

instance : IsTotal PgRow pgPointsDescRel :=
  ⟨fun a b => Int.le_total b.points a.points⟩

instance : IsTrans PgRow pgPointsDescRel :=
  ⟨fun _ _ _ hab hbc => Int.le_trans hbc hab⟩

/-- `PostgresStorage.top` (src/bot.py:297-304): `select user_id, points from
vouches order by points desc limit $1`.  (Postgres rejects a negative LIMIT;
the model is used with `0 ≤ limit`.) -/
def PostgresStorage.top (s : PgTable) (limit : Int := 10) : List (Int × Int) :=
  ((List.insertionSort pgPointsDescRel s).take limit.toNat).map (fun r => (r.user_id, r.points))

/-- A mutating call against the File Backend. -/
inductive Op where
  | addPoints (user_id delta : Int)
  | addVouch (user_id points_delta vouches_delta : Int)

/-- State transition of one mutating call. -/
def applyOp (st : Ledger) : Op → Ledger
  | .addPoints u d => (JsonStorage.add_points st u d).1
  | .addVouch u pd vd => (JsonStorage.add_vouch st u pd vd).1

/-- A whole sequence of mutating calls. -/
def runOps (st : Ledger) (ops : List Op) : Ledger :=
  ops.foldl applyOp st

/-- Every stored entry has non-negative counters. -/
def LedgerNonneg (st : Ledger) : Prop :=
  ∀ p ∈ st, 0 ≤ p.2.points ∧ 0 ≤ p.2.total_vouches

/-- Spec-side per-entry normalization of a legacy snapshot entry, following
the spec's words — normalize each entry to `(user_id, points, total_vouches)`
per the dual-shape rule, skipping entries whose key cannot be parsed as an
integer id; `none` means the entry is skipped.  Used to state what the
migration loop computes when no entry aborts it. -/
def normalizeEntrySpec (e : String × JValue) : Option (Int × Int × Int) :=
  match pyParseInt e.1 with
  | none => none
  | some uid =>
    match e.2 with
    | .jint n => some (uid, n, 0)
    | .jbool b => some (uid, (if b then 1 else 0), 0)
    | .jobj fs =>
      match legacyPoints fs, legacyVouches fs with
      | some p, some tv => some (uid, p, tv)
      | _, _ => none
    | _ => none

/-- The `user_id` column of the table, in row order. -/
def keysOf (s : PgTable) : List Int :=
  s.map (fun r => r.user_id)

/-- The `(points, total_vouches)` payload of a user's row, if present:
the observation the upsert-overwrite reasoning is conducted through. -/
def lookupPV (s : PgTable) (u : Int) : Option (Int × Int) :=
  (pgFind s u).map (fun q => (q.points, q.total_vouches))

/-- The payload of the last row of `rows` bearing key `u` — the row that wins
under overwrite semantics. -/
def lastVal (rows : List (Int × Int × Int)) (u : Int) : Option (Int × Int) :=
  (rows.reverse.find? (fun r => r.1 == u)).map (fun r => (r.2.1, r.2.2))

/-! ### Association-list (Python dict) lemmas -/

theorem dictGet_mem {α : Type} {m : List (String × α)} {k : String} {v : α}
    (h : dictGet m k = some v) : (k, v) ∈ m := by
  unfold dictGet at h
  cases hfind : m.find? (fun p => p.1 == k) with
  | none => rw [hfind] at h; simp at h
  | some p =>
    rw [hfind] at h
    simp only [Option.map_some', Option.some.injEq] at h
    have hmem := List.mem_of_find?_eq_some hfind
    have hkey : p.1 = k := by simpa using List.find?_some hfind
    cases p
    simp_all

theorem find?_cons_pos {α : Type} (p : α → Bool) (a : α) (l : List α) (h : p a = true) :
    (a :: l).find? p = some a :=
  List.find?_cons_of_pos l h

theorem find?_cons_neg {α : Type} (p : α → Bool) (a : α) (l : List α) (h : p a = false) :
    (a :: l).find? p = l.find? p :=
  List.find?_cons_of_neg l (by simp [h])

theorem find?_map_update {α : Type} (m : List (String × α)) (k : String) (v : α) :
    (m.map (fun p => if p.1 == k then (k, v) else p)).find? (fun p => p.1 == k)
      = if m.any (fun p => p.1 == k) then some (k, v) else none := by
  induction m with
  | nil => rfl
  | cons p m ih =>
    simp only [List.map_cons, List.any_cons]
    by_cases hp : p.1 == k
    · rw [if_pos hp, find?_cons_pos (fun q : String × α => q.1 == k) _ _ (by simp)]
      simp [hp]
    · rw [if_neg hp, find?_cons_neg (fun q : String × α => q.1 == k) _ _ (by simpa using hp), ih]
      have hp' : (p.1 == k) = false := by simpa using hp
      simp only [hp', Bool.false_or]

theorem dictGet_dictSet_self {α : Type} (m : List (String × α)) (k : String) (v : α) :
    dictGet (dictSet m k v) k = some v := by
  unfold dictGet dictSet
  by_cases h : m.any (fun p => p.1 == k)
  · rw [if_pos h, find?_map_update, if_pos h]
    rfl
  · rw [if_neg h]
    have hnone : m.find? (fun p => p.1 == k) = none := by
      rw [List.find?_eq_none]
      intro x hx hbx
      exact h (List.any_eq_true.2 ⟨x, hx, hbx⟩)
    rw [List.find?_append, hnone]
    simp

theorem dictGet_dictSet_ne {α : Type} (m : List (String × α)) (k k' : String) (v : α)
    (hne : k' ≠ k) : dictGet (dictSet m k v) k' = dictGet m k' := by
  have hkk : (k == k') = false := by
    simp only [beq_eq_false_iff_ne]
    exact fun h => hne h.symm
  unfold dictGet dictSet
  by_cases h : m.any (fun p => p.1 == k)
  · rw [if_pos h]
    congr 1
    clear h
    induction m with
    | nil => rfl
    | cons p m ih =>
      simp only [List.map_cons]
      by_cases hp : p.1 == k
      · have hp1 : p.1 = k := by simpa using hp
        rw [if_pos hp, find?_cons_neg (fun q : String × α => q.1 == k') _ _ (by simpa using hkk),
          find?_cons_neg (fun q : String × α => q.1 == k') _ _ (by simpa [hp1] using hkk)]
        exact ih
      · rw [if_neg hp]
        by_cases hk2 : p.1 == k'
        · rw [find?_cons_pos (fun q : String × α => q.1 == k') _ _ hk2,
            find?_cons_pos (fun q : String × α => q.1 == k') _ _ hk2]
        · rw [find?_cons_neg (fun q : String × α => q.1 == k') _ _ (by simpa using hk2),
            find?_cons_neg (fun q : String × α => q.1 == k') _ _ (by simpa using hk2)]
          exact ih
  · rw [if_neg h, List.find?_append]
    have hsing : ([(k, v)].find? (fun p => p.1 == k')) = none := by
      simp [hkk]
    rw [hsing]
    cases m.find? (fun p => p.1 == k') <;> rfl

theorem mem_dictSet {α : Type} {m : List (String × α)} {k : String} {v : α} {p : String × α}
    (h : p ∈ dictSet m k v) : p = (k, v) ∨ p ∈ m := by
  unfold dictSet at h
  by_cases hany : m.any (fun q => q.1 == k)
  · rw [if_pos hany] at h
    obtain ⟨q, hq, hfq⟩ := List.mem_map.1 h
    by_cases hqk : q.1 == k
    · left; rw [← hfq]; simp [hqk]
    · right; rw [← hfq]; simpa [hqk] using hq
  · rw [if_neg hany] at h
    rcases List.mem_append.1 h with h | h
    · right; exact h
    · left; simpa using h

/-! ### Decimal print/parse round trip

`JsonStorage` keys every entry by `str(user_id)`.  These lemmas show that the
model's `int(str)` (`pyParseInt`) inverts `str(int)` (`toString`), hence that
distinct user ids always have distinct keys. -/

theorem digitChar_facts : ∀ m : Nat, m < 10 →
    (Nat.digitChar m).isDigit = true ∧ (Nat.digitChar m).toNat - 48 = m ∧
    Nat.digitChar m ≠ '-' ∧ Nat.digitChar m ≠ '+' := by
  decide

theorem toDigitsCore_shift (fuel : Nat) : ∀ (n : Nat) (ds : List Char),
    Nat.toDigitsCore 10 fuel n ds = Nat.toDigitsCore 10 fuel n [] ++ ds := by
  induction fuel with
  | zero => intro n ds; simp [Nat.toDigitsCore]
  | succ fuel ih =>
    intro n ds
    simp only [Nat.toDigitsCore]
    by_cases h : n / 10 = 0
    · simp [h]
    · rw [if_neg h, if_neg h, ih (n / 10) (Nat.digitChar (n % 10) :: ds),
        ih (n / 10) [Nat.digitChar (n % 10)]]
      simp

theorem toDigitsCore_head (fuel : Nat) : ∀ (n : Nat) (ds : List Char),
    ∃ m cs, m < 10 ∧ Nat.toDigitsCore 10 (fuel + 1) n ds = Nat.digitChar m :: cs := by
  induction fuel with
  | zero =>
    intro n ds
    refine ⟨n % 10, ds, Nat.mod_lt _ (by omega), ?_⟩
    simp only [Nat.toDigitsCore]
    by_cases h : n / 10 = 0 <;> simp [h, Nat.toDigitsCore]
  | succ fuel ih =>
    intro n ds
    by_cases h : n / 10 = 0
    · exact ⟨n % 10, ds, Nat.mod_lt _ (by omega), by simp [Nat.toDigitsCore, h]⟩
    · obtain ⟨m, cs, hm, hEq⟩ := ih (n / 10) (Nat.digitChar (n % 10) :: ds)
      refine ⟨m, cs, hm, ?_⟩
      rw [← hEq]
      simp [Nat.toDigitsCore, h]

theorem digitsToNatAux_toDigitsCore (fuel : Nat) : ∀ (n acc : Nat) (ds : List Char),
    n < fuel →
    digitsToNatAux acc (Nat.toDigitsCore 10 fuel n [] ++ ds)
      = digitsToNatAux (acc * 10 ^ (Nat.toDigitsCore 10 fuel n []).length + n) ds := by
  induction fuel with
  | zero => intro n acc ds h; omega
  | succ fuel ih =>
    intro n acc ds hn
    have hm : n % 10 < 10 := Nat.mod_lt _ (by omega)
    obtain ⟨hdig, hval, -, -⟩ := digitChar_facts (n % 10) hm
    by_cases h : n / 10 = 0
    · have hn10 : n < 10 := by omega
      have hEq : Nat.toDigitsCore 10 (fuel + 1) n [] = [Nat.digitChar (n % 10)] := by
        simp [Nat.toDigitsCore, h]
      rw [hEq]
      simp only [List.cons_append, List.nil_append, digitsToNatAux, hdig, if_true, hval,
        List.length_cons, List.length_nil]
      have : n % 10 = n := Nat.mod_eq_of_lt hn10
      rw [this, pow_one]
      rfl
    · have hdiv : n / 10 < fuel := by omega
      have hEq : Nat.toDigitsCore 10 (fuel + 1) n []
          = Nat.toDigitsCore 10 fuel (n / 10) [] ++ [Nat.digitChar (n % 10)] := by
        simp only [Nat.toDigitsCore]
        rw [if_neg h, toDigitsCore_shift]
      rw [hEq, List.append_assoc, List.singleton_append,
        ih (n / 10) acc (Nat.digitChar (n % 10) :: ds) hdiv]
      simp only [digitsToNatAux, hdig, if_true, hval, List.length_append, List.length_cons,
        List.length_nil]
      congr 1
      rw [pow_succ, ← mul_assoc]
      generalize acc * 10 ^ (Nat.toDigitsCore 10 fuel (n / 10) []).length = A
      omega

theorem digitsToNat_toDigits (n : Nat) :
    digitsToNat (Nat.toDigits 10 n) = some n := by
  obtain ⟨m, cs, hm, hEq⟩ := toDigitsCore_head n n []
  have hne : Nat.toDigits 10 n ≠ [] := by
    unfold Nat.toDigits
    rw [hEq]
    simp
  unfold digitsToNat
  rw [if_neg (by simpa using hne)]
  have h := digitsToNatAux_toDigitsCore (n + 1) n 0 [] (by omega)
  simpa [Nat.toDigits] using h

theorem pyParseInt_natRepr (n : Nat) : pyParseInt (Nat.repr n) = some (n : Int) := by
  obtain ⟨m, cs, hm, hEq⟩ := toDigitsCore_head n n []
  have hlist : (Nat.repr n).toList = Nat.toDigits 10 n := rfl
  obtain ⟨-, -, hminus, hplus⟩ := digitChar_facts m hm
  have hEq' : Nat.toDigits 10 n = Nat.digitChar m :: cs := hEq
  unfold pyParseInt
  rw [hlist, hEq']
  simp only [if_neg hminus, if_neg hplus]
  rw [← hEq', digitsToNat_toDigits]
  rfl

theorem pyParseInt_toString_int (i : Int) : pyParseInt (toString i) = some i := by
  cases i with
  | ofNat n => exact pyParseInt_natRepr n
  | negSucc n =>
    have hlist : (toString (Int.negSucc n)).toList = '-' :: Nat.toDigits 10 (n + 1) := rfl
    unfold pyParseInt
    rw [hlist]
    simp only [if_pos rfl]
    rw [digitsToNat_toDigits]
    simp [Int.negSucc_eq]

theorem toString_int_inj {a b : Int} (h : toString a = toString b) : a = b := by
  have ha := pyParseInt_toString_int a
  rw [h, pyParseInt_toString_int b] at ha
  exact (Option.some.injEq _ _ ▸ ha).symm

/-! ### File Backend: non-negativity machinery -/

theorem clamp_nonneg (x : Int) : 0 ≤ (if x < 0 then 0 else x : Int) := by
  split <;> omega

theorem getD_entry_nonneg {st : Ledger} (h : LedgerNonneg st) (k : String) :
    0 ≤ ((dictGet st k).getD ⟨0, 0⟩).points ∧ 0 ≤ ((dictGet st k).getD ⟨0, 0⟩).total_vouches := by
  cases hg : dictGet st k with
  | none => simp [Option.getD]
  | some e => simpa using h _ (dictGet_mem hg)

theorem applyOp_nonneg {st : Ledger} (h : LedgerNonneg st) (op : Op) :
    LedgerNonneg (applyOp st op) := by
  cases op with
  | addPoints u d =>
    intro p hp
    simp only [applyOp, JsonStorage.add_points] at hp
    rcases mem_dictSet hp with rfl | hmem
    · refine ⟨clamp_nonneg _, ?_⟩
      simpa using (getD_entry_nonneg h (toString u)).2
    · exact h p hmem
  | addVouch u pd vd =>
    intro p hp
    simp only [applyOp, JsonStorage.add_vouch] at hp
    rcases mem_dictSet hp with rfl | hmem
    · exact ⟨clamp_nonneg _, clamp_nonneg _⟩
    · exact h p hmem

theorem runOps_nonneg {st : Ledger} (h : LedgerNonneg st) (ops : List Op) :
    LedgerNonneg (runOps st ops) := by
  induction ops generalizing st with
  | nil => exact h
  | cons op ops ih => exact ih (applyOp_nonneg h op)

theorem get_points_nonneg {st : Ledger} (h : LedgerNonneg st) (u : Int) :
    0 ≤ JsonStorage.get_points st u := by
  unfold JsonStorage.get_points
  cases hg : dictGet st (toString u) with
  | none => simp
  | some e => simpa using (h _ (dictGet_mem hg)).1

theorem get_stats_nonneg {st : Ledger} (h : LedgerNonneg st) (u : Int) :
    0 ≤ (JsonStorage.get_stats st u).1 ∧ 0 ≤ (JsonStorage.get_stats st u).2 := by
  unfold JsonStorage.get_stats
  cases hg : dictGet st (toString u) with
  | none => simp
  | some e => simpa using h _ (dictGet_mem hg)

/-! ### File Backend: read-back lemmas -/

theorem add_vouch_read_back (st : Ledger) (u pd vd : Int) :
    JsonStorage.get_stats (JsonStorage.add_vouch st u pd vd).1 u
      = (JsonStorage.add_vouch st u pd vd).2 := by
  simp [JsonStorage.add_vouch, JsonStorage.get_stats, dictGet_dictSet_self]

theorem add_points_read_back (st : Ledger) (u d : Int) :
    JsonStorage.get_points (JsonStorage.add_points st u d).1 u
      = (JsonStorage.add_points st u d).2 := by
  simp [JsonStorage.add_points, JsonStorage.get_points, dictGet_dictSet_self]

/-! ### Leaderboard machinery -/

theorem topRowsAux_eq_map {l : List (String × Entry)}
    (h : ∀ p ∈ l, (pyParseInt p.1).isSome) :
    topRowsAux l = some (l.map (fun p => ((pyParseInt p.1).getD 0, p.2.points))) := by
  induction l with
  | nil => rfl
  | cons p l ih =>
    obtain ⟨uid, huid⟩ := Option.isSome_iff_exists.1 (h p (by simp))
    have hrest := ih (fun q hq => h q (by simp [hq]))
    simp [topRowsAux, huid, hrest]

theorem pyTake_nonneg {α : Type} (l : List α) {k : Int} (hk : 0 ≤ k) :
    pyTake l k = l.take k.toNat := by
  unfold pyTake
  rw [if_neg (by omega)]

/-! ### Relational Backend machinery -/

theorem find?_userId_map {f : PgRow → PgRow} (hf : ∀ r, (f r).user_id = r.user_id)
    (s : PgTable) (w : Int) :
    (s.map f).find? (fun r => r.user_id == w) = (s.find? (fun r => r.user_id == w)).map f := by
  induction s with
  | nil => rfl
  | cons r s ih =>
    rw [List.map_cons]
    by_cases hw : r.user_id = w
    · rw [find?_cons_pos (fun q : PgRow => q.user_id == w) _ _ (by simp [hf, hw]),
        find?_cons_pos (fun q : PgRow => q.user_id == w) _ _ (by simp [hw])]
      rfl
    · rw [find?_cons_neg (fun q : PgRow => q.user_id == w) _ _ (by simp [hf, hw]),
        find?_cons_neg (fun q : PgRow => q.user_id == w) _ _ (by simp [hw])]
      exact ih

theorem pgFind_eq_none {s : PgTable} {u : Int} (h : u ∉ keysOf s) :
    pgFind s u = none := by
  rw [pgFind, List.find?_eq_none]
  intro r hr hru
  exact h (List.mem_map.2 ⟨r, hr, by simpa using hru⟩)

theorem pgFind_mem_keys {s : PgTable} {u : Int} (h : u ∈ keysOf s) :
    ∃ q, pgFind s u = some q ∧ q.user_id = u := by
  obtain ⟨r, hr, hru⟩ := List.mem_map.1 h
  have hsome : (s.find? (fun r => r.user_id == u)).isSome := by
    rw [List.find?_isSome]
    exact ⟨r, hr, by simpa using hru⟩
  obtain ⟨q, hq⟩ := Option.isSome_iff_exists.1 hsome
  exact ⟨q, hq, by simpa using List.find?_some hq⟩

theorem mem_keysOf_of_pgFind {s : PgTable} {u : Int} {q : PgRow}
    (h : pgFind s u = some q) : u ∈ keysOf s :=
  List.mem_map.2 ⟨q, List.mem_of_find?_eq_some h, by simpa using List.find?_some h⟩

theorem lookupPV_pgUpsertRow (s : PgTable) (row : Int × Int × Int) (u : Int) :
    lookupPV (pgUpsertRow s row) u
      = if u = row.1 then some (row.2.1, row.2.2) else lookupPV s u := by
  unfold pgUpsertRow
  cases hf : pgFind s row.1 with
  | some q =>
    have hid : ∀ r : PgRow,
        ((if r.user_id == row.1 then (⟨row.1, row.2.1, row.2.2⟩ : PgRow) else r)).user_id
          = r.user_id := by
      intro r
      by_cases h : r.user_id = row.1 <;> simp [h]
    unfold lookupPV pgFind
    rw [find?_userId_map hid]
    by_cases hu : u = row.1
    · subst hu
      rw [show List.find? (fun r => r.user_id == row.1) s = some q from hf]
      have hq : q.user_id = row.1 := by simpa using List.find?_some hf
      simp [hq]
    · cases hfu : s.find? (fun r => r.user_id == u) with
      | none => simp [hu]
      | some q' =>
        have hq' : q'.user_id = u := by simpa using List.find?_some hfu
        simp [hu, hq']
  | none =>
    unfold lookupPV pgFind
    rw [List.find?_append]
    by_cases hu : u = row.1
    · subst hu
      rw [show List.find? (fun r => r.user_id == row.1) s = none from hf]
      simp
    · rw [if_neg hu]
      have hne : ((⟨row.1, row.2.1, row.2.2⟩ : PgRow).user_id == u) = false := by
        simp only [beq_eq_false_iff_ne]
        exact fun h => hu h.symm
      rw [find?_cons_neg (fun r : PgRow => r.user_id == u) _ _ hne]
      simp

theorem keysOf_pgUpsertRow (s : PgTable) (row : Int × Int × Int) :
    keysOf (pgUpsertRow s row)
      = if row.1 ∈ keysOf s then keysOf s else keysOf s ++ [row.1] := by
  unfold pgUpsertRow
  cases hf : pgFind s row.1 with
  | some q =>
    rw [if_pos (mem_keysOf_of_pgFind hf)]
    unfold keysOf
    rw [List.map_map]
    apply List.map_congr_left
    intro r _
    by_cases h : r.user_id = row.1 <;> simp [h]
  | none =>
    have hnot : row.1 ∉ keysOf s := by
      intro hmem
      obtain ⟨q, hq, -⟩ := pgFind_mem_keys hmem
      rw [hf] at hq
      exact Option.noConfusion hq
    rw [if_neg hnot]
    unfold keysOf
    simp

theorem nodup_keysOf_pgUpsertRow {s : PgTable} (h : (keysOf s).Nodup)
    (row : Int × Int × Int) : (keysOf (pgUpsertRow s row)).Nodup := by
  rw [keysOf_pgUpsertRow]
  by_cases hm : row.1 ∈ keysOf s
  · rwa [if_pos hm]
  · rw [if_neg hm, List.nodup_append]
    exact ⟨h, List.nodup_singleton _, List.disjoint_singleton.2 hm⟩

theorem lastVal_cons (r : Int × Int × Int) (rows : List (Int × Int × Int)) (u : Int) :
    lastVal (r :: rows) u
      = (lastVal rows u).elim (if r.1 = u then some (r.2.1, r.2.2) else none) some := by
  unfold lastVal
  rw [List.reverse_cons, List.find?_append]
  cases hfind : rows.reverse.find? (fun q => q.1 == u) with
  | none =>
    by_cases hr : r.1 = u
    · rw [find?_cons_pos (fun q : Int × Int × Int => q.1 == u) _ _ (by simp [hr]), if_pos hr]
      rfl
    · rw [find?_cons_neg (fun q : Int × Int × Int => q.1 == u) _ _ (by simp [hr]), if_neg hr]
      rfl
  | some q =>
    rfl

theorem keysOf_mono {s : PgTable} {u : Int} (h : u ∈ keysOf s) (row : Int × Int × Int) :
    u ∈ keysOf (pgUpsertRow s row) := by
  rw [keysOf_pgUpsertRow]
  by_cases hm : row.1 ∈ keysOf s
  · rwa [if_pos hm]
  · rw [if_neg hm]
    exact List.mem_append.2 (Or.inl h)

theorem key_mem_pgUpsertRow (s : PgTable) (row : Int × Int × Int) :
    row.1 ∈ keysOf (pgUpsertRow s row) := by
  rw [keysOf_pgUpsertRow]
  by_cases hm : row.1 ∈ keysOf s
  · rwa [if_pos hm]
  · rw [if_neg hm]
    exact List.mem_append.2 (Or.inr (by simp))

theorem keys_sub_bulk (rows : List (Int × Int × Int)) : ∀ (s : PgTable) (u : Int),
    u ∈ keysOf s → u ∈ keysOf (PostgresStorage.bulk_upsert s rows) := by
  induction rows with
  | nil => intro s u h; exact h
  | cons r rows ih => intro s u h; exact ih _ _ (keysOf_mono h r)

theorem rows_keys_mem_bulk (rows : List (Int × Int × Int)) : ∀ (s : PgTable),
    ∀ r ∈ rows, r.1 ∈ keysOf (PostgresStorage.bulk_upsert s rows) := by
  induction rows with
  | nil => intro s r h; cases h
  | cons r0 rows ih =>
    intro s r h
    rcases List.mem_cons.1 h with rfl | h
    · exact keys_sub_bulk rows _ _ (key_mem_pgUpsertRow s r)
    · exact ih _ r h

theorem keysOf_bulk_of_mem (rows : List (Int × Int × Int)) : ∀ (s : PgTable),
    (∀ r ∈ rows, r.1 ∈ keysOf s) →
    keysOf (PostgresStorage.bulk_upsert s rows) = keysOf s := by
  induction rows with
  | nil => intro s _; rfl
  | cons r rows ih =>
    intro s h
    have h0 : r.1 ∈ keysOf s := h r (by simp)
    have hup : keysOf (pgUpsertRow s r) = keysOf s := by
      rw [keysOf_pgUpsertRow, if_pos h0]
    show keysOf (PostgresStorage.bulk_upsert (pgUpsertRow s r) rows) = keysOf s
    rw [ih _ (fun q hq => by rw [hup]; exact h q (by simp [hq])), hup]

theorem lookupPV_bulk (rows : List (Int × Int × Int)) : ∀ (s : PgTable) (u : Int),
    lookupPV (PostgresStorage.bulk_upsert s rows) u
      = (lastVal rows u).elim (lookupPV s u) some := by
  induction rows with
  | nil => intro s u; rfl
  | cons r rows ih =>
    intro s u
    show lookupPV (PostgresStorage.bulk_upsert (pgUpsertRow s r) rows) u = _
    rw [ih, lastVal_cons, lookupPV_pgUpsertRow]
    cases hl : lastVal rows u with
    | some pv => rfl
    | none =>
      by_cases hr : r.1 = u
      · rw [if_pos hr.symm, if_pos hr]
        rfl
      · rw [if_neg (fun h => hr h.symm), if_neg hr]
        rfl

theorem nodup_keysOf_bulk (rows : List (Int × Int × Int)) : ∀ {s : PgTable},
    (keysOf s).Nodup → (keysOf (PostgresStorage.bulk_upsert s rows)).Nodup := by
  induction rows with
  | nil => intro s h; exact h
  | cons r rows ih => intro s h; exact ih (nodup_keysOf_pgUpsertRow h r)

theorem pgTable_ext (s : PgTable) : ∀ (t : PgTable),
    keysOf s = keysOf t → (∀ u, lookupPV s u = lookupPV t u) →
    (keysOf s).Nodup → s = t := by
  induction s with
  | nil =>
    intro t hk _ _
    cases t with
    | nil => rfl
    | cons r t => exact absurd hk (by simp [keysOf])
  | cons q s ih =>
    intro t hk hl hnd
    cases t with
    | nil => exact absurd hk (by simp [keysOf])
    | cons r t =>
      simp only [keysOf, List.map_cons, List.cons.injEq] at hk
      obtain ⟨hq, htail⟩ := hk
      have hnd' : (∀ x ∈ s, ¬x.user_id = q.user_id)
          ∧ (List.map (fun r : PgRow => r.user_id) s).Nodup := by
        simpa [keysOf] using hnd
      have hnotin : q.user_id ∉ keysOf s := by
        intro hmem
        obtain ⟨x, hx, hxid⟩ := List.mem_map.1 hmem
        exact hnd'.1 x hx hxid
      have hndtail : (keysOf s).Nodup := hnd'.2
      have h0 := hl q.user_id
      have hfq : pgFind (q :: s) q.user_id = some q :=
        find?_cons_pos (fun x : PgRow => x.user_id == q.user_id) _ _ (by simp)
      have hfr : pgFind (r :: t) q.user_id = some r :=
        find?_cons_pos (fun x : PgRow => x.user_id == q.user_id) _ _ (by simp [hq])
      rw [lookupPV, lookupPV, hfq, hfr] at h0
      simp only [Option.map_some', Option.some.injEq, Prod.mk.injEq] at h0
      have hqr : q = r := by
        cases q
        cases r
        simp_all
      subst hqr
      congr 1
      apply ih t htail _ hndtail
      intro u
      by_cases hu : u = q.user_id
      · subst hu
        have hnotin' : q.user_id ∉ keysOf t := by
          rw [keysOf, ← htail]
          exact hnotin
        rw [lookupPV, lookupPV, pgFind_eq_none hnotin, pgFind_eq_none hnotin']
      · have hstep := hl u
        have hne : (q.user_id == u) = false := by
          simp only [beq_eq_false_iff_ne]
          exact fun h => hu h.symm
        rw [lookupPV, lookupPV, pgFind, pgFind,
          find?_cons_neg (fun x : PgRow => x.user_id == u) _ _ hne,
          find?_cons_neg (fun x : PgRow => x.user_id == u) _ _ hne] at hstep
        exact hstep

/-! ### Migration loader refinement -/

theorem loadRowsAux_eq_filterMap :
    ∀ (fields : List (String × JValue)) (rows : List (Int × Int × Int)),
      loadRowsAux fields = some rows → rows = fields.filterMap normalizeEntrySpec := by
  intro fields
  induction fields with
  | nil =>
    intro rows h
    simpa [loadRowsAux] using h.symm
  | cons e fields ih =>
    intro rows h
    obtain ⟨k, v⟩ := e
    cases hk : pyParseInt k with
    | none =>
      simp only [loadRowsAux, hk] at h
      have hnorm : normalizeEntrySpec (k, v) = none := by
        simp [normalizeEntrySpec, hk]
      rw [List.filterMap_cons_none hnorm]
      exact ih rows h
    | some uid =>
      cases v with
      | jint n =>
        simp only [loadRowsAux, hk] at h
        cases hrest : loadRowsAux fields with
        | none => rw [hrest] at h; simp at h
        | some rs =>
          rw [hrest] at h
          simp only [Option.map_some', Option.some.injEq] at h
          have hnorm : normalizeEntrySpec (k, .jint n) = some (uid, n, 0) := by
            simp [normalizeEntrySpec, hk]
          rw [List.filterMap_cons_some hnorm]
          rw [← h, ih rs hrest]
      | jbool b =>
        simp only [loadRowsAux, hk] at h
        cases hrest : loadRowsAux fields with
        | none => rw [hrest] at h; simp at h
        | some rs =>
          rw [hrest] at h
          simp only [Option.map_some', Option.some.injEq] at h
          have hnorm : normalizeEntrySpec (k, .jbool b)
              = some (uid, (if b then 1 else 0), 0) := by
            simp [normalizeEntrySpec, hk]
          rw [List.filterMap_cons_some hnorm]
          rw [← h, ih rs hrest]
      | jobj fs =>
        simp only [loadRowsAux, hk] at h
        cases hp : legacyPoints fs with
        | none => rw [hp] at h; simp at h
        | some p =>
          cases htv : legacyVouches fs with
          | none => rw [hp, htv] at h; simp at h
          | some tv =>
            rw [hp, htv] at h
            cases hrest : loadRowsAux fields with
            | none => rw [hrest] at h; simp at h
            | some rs =>
              rw [hrest] at h
              simp only [Option.map_some', Option.some.injEq] at h
              have hnorm : normalizeEntrySpec (k, .jobj fs) = some (uid, p, tv) := by
                simp [normalizeEntrySpec, hk, hp, htv]
              rw [List.filterMap_cons_some hnorm]
              rw [← h, ih rs hrest]
      | jnull =>
        simp only [loadRowsAux, hk] at h
        have hnorm : normalizeEntrySpec (k, .jnull) = none := by
          simp [normalizeEntrySpec, hk]
        rw [List.filterMap_cons_none hnorm]
        exact ih rows h
      | jstr s =>
        simp only [loadRowsAux, hk] at h
        have hnorm : normalizeEntrySpec (k, .jstr s) = none := by
          simp [normalizeEntrySpec, hk]
        rw [List.filterMap_cons_none hnorm]
        exact ih rows h
      | jarr xs =>
        simp only [loadRowsAux, hk] at h
        have hnorm : normalizeEntrySpec (k, .jarr xs) = none := by
          simp [normalizeEntrySpec, hk]
        rw [List.filterMap_cons_none hnorm]
        exact ih rows h

theorem pg_add_points_state_some {s : PgTable} {u d : Int} {q : PgRow}
    (hf : pgFind s u = some q) :
    PostgresStorage.add_points s u d
      = (s.map (fun r => if r.user_id == u then { r with points := max 0 (q.points + d) }
          else r), max 0 (q.points + d)) := by
  unfold PostgresStorage.add_points
  rw [hf]

theorem pg_add_points_state_none {s : PgTable} {u d : Int} (hf : pgFind s u = none) :
    PostgresStorage.add_points s u d = (s ++ [⟨u, 0, 0⟩], 0) := by
  unfold PostgresStorage.add_points
  rw [hf]

theorem pg_get_stats_eq (s : PgTable) (u : Int) :
    PostgresStorage.get_stats s u
      = ((pgFind s u).map (fun q => (q.points, q.total_vouches))).getD (0, 0) := by
  unfold PostgresStorage.get_stats
  cases pgFind s u <;> rfl

theorem pgFind_add_points_some {s : PgTable} {u d : Int} {q : PgRow}
    (hf : pgFind s u = some q) (w : Int) :
    pgFind (PostgresStorage.add_points s u d).1 w
      = (pgFind s w).map
          (fun r => if r.user_id == u then { r with points := max 0 (q.points + d) } else r) := by
  rw [pg_add_points_state_some hf]
  exact find?_userId_map (fun r => by by_cases h : r.user_id = u <;> simp [h]) s w

theorem pgFind_append_single (s : PgTable) (row : PgRow) (w : Int) :
    pgFind (s ++ [row]) w
      = (pgFind s w).or (if row.user_id == w then some row else none) := by
  unfold pgFind
  rw [List.find?_append]
  congr 1
  by_cases h : row.user_id == w
  · rw [find?_cons_pos (fun q : PgRow => q.user_id == w) _ _ h, if_pos h]
  · rw [find?_cons_neg (fun q : PgRow => q.user_id == w) _ _ (by simpa using h), if_neg h]
    rfl

/-! ## Claim theorems -/

/-- C1: `AddPoints(u, delta)` must apply `new = max(0, current + delta)` (current
read as 0 for an absent entry), persist it and return it, in both backends,
including a fresh user with a positive delta.  The File Backend does (first two
conjuncts, the second being the spec's `AddPoints(u, -1000000)` fresh-user
example).  The Relational Backend violates the claim at the fresh-user case: on
an empty table, `add_points(1, 5)` inserts the zero-valued row — the
`on conflict do update` arm that applies `greatest(0, points + delta)` never
runs without a conflict — and returns 0 where the claim demands
`max(0, 0 + 5) = 5`; the stored points are likewise 0 (last conjunct). -/
theorem C1_add_points_fresh_user_bug :
    JsonStorage.add_points [] 1 5 = ([("1", ⟨5, 0⟩)], 5) ∧
    JsonStorage.add_points [] 1 (-1000000) = ([("1", ⟨0, 0⟩)], 0) ∧
    PostgresStorage.add_points [] 1 5 = ([⟨1, 0, 0⟩], 0) ∧
    (PostgresStorage.add_points [] 1 5).2 ≠ max 0 (PostgresStorage.get_points [] 1 + 5) ∧
    PostgresStorage.get_points (PostgresStorage.add_points [] 1 5).1 1 = 0 := by
  decide

/-- C2: `AddVouch(u, pd, vd)` must floor both counters at zero independently
against the stored values (0 when absent) and return the pair.  The File
Backend does, and its `AddVouch(u,3,1); AddVouch(u,-5,-1)` run yields `(0,0)`
as the spec's example says.  The Relational Backend violates the general rule
at the fresh-user case: `add_vouch(1, 3, 1)` on an empty table inserts the
`(1, 0, 0)` row and returns `(0, 0)` where the claim demands
`(max(0,0+3), max(0,0+1)) = (3, 1)`.  (The spec's two-call example happens to
give `(0,0)` on this backend as well — it does not discriminate.) -/
theorem C2_add_vouch_fresh_user_bug :
    JsonStorage.add_vouch [] 1 3 1 = ([("1", ⟨3, 1⟩)], (3, 1)) ∧
    (JsonStorage.add_vouch (JsonStorage.add_vouch [] 1 3 1).1 1 (-5) (-1)).2 = (0, 0) ∧
    PostgresStorage.add_vouch [] 1 3 1 = ([⟨1, 0, 0⟩], (0, 0)) ∧
    (PostgresStorage.add_vouch [] 1 3 1).2
      ≠ (max 0 ((PostgresStorage.get_stats [] 1).1 + 3),
         max 0 ((PostgresStorage.get_stats [] 1).2 + 1)) ∧
    (PostgresStorage.add_vouch (PostgresStorage.add_vouch [] 1 3 1).1 1 (-5) (-1)).2
      = (0, 0) := by
  decide

/-- C3 (counterexample to the claim as stated): `JsonStorage.init` stores
legacy snapshot values unclamped, so after `Init` on the snapshot
`{"42": -7}` and an empty call sequence, `GetPoints(42)` returns `-7 < 0`. -/
theorem C3_counterexample :
    JsonStorage.get_points
        (runOps (JsonStorage.init (.parsed (.jobj [("42", .jint (-7))]))) []) 42 = -7 ∧
    ¬ (0 : Int) ≤ -7 := by
  decide

/-- C3 (amended): for the File Backend, after `Init` on any snapshot whose
normalized entries are all non-negative — in particular any snapshot the
backend itself wrote — followed by any sequence of `AddPoints`/`AddVouch`
calls, every stored entry satisfies `points ≥ 0` and `total_vouches ≥ 0`,
and `GetPoints`/`GetStats` never return a negative value. -/
theorem C3_nonneg_invariant (file : FileContent)
    (h : LedgerNonneg (JsonStorage.init file)) (ops : List Op) :
    LedgerNonneg (runOps (JsonStorage.init file) ops) ∧
    (∀ u : Int, 0 ≤ JsonStorage.get_points (runOps (JsonStorage.init file) ops) u) ∧
    (∀ u : Int, 0 ≤ (JsonStorage.get_stats (runOps (JsonStorage.init file) ops) u).1 ∧
      0 ≤ (JsonStorage.get_stats (runOps (JsonStorage.init file) ops) u).2) := by
  have hrun := runOps_nonneg h ops
  exact ⟨hrun, fun u => get_points_nonneg hrun u, fun u => get_stats_nonneg hrun u⟩

theorem C3_witness :
    LedgerNonneg (JsonStorage.init (.parsed (.jobj [("42", .jint 7)]))) ∧
    LedgerNonneg (runOps (JsonStorage.init (.parsed (.jobj [("42", .jint 7)])))
      [Op.addPoints 42 (-100), Op.addVouch 7 3 1]) := by
  have h0 : LedgerNonneg (JsonStorage.init (.parsed (.jobj [("42", .jint 7)]))) := by
    intro p hp
    have hinit : JsonStorage.init (.parsed (.jobj [("42", .jint 7)]))
        = [("42", ⟨7, 0⟩)] := by decide
    rw [hinit, List.mem_singleton] at hp
    subst hp
    exact ⟨by decide, by decide⟩
  exact ⟨h0, (C3_nonneg_invariant _ h0 [Op.addPoints 42 (-100), Op.addVouch 7 3 1]).1⟩

/-- C4 (counterexample to the claim as stated): one object-valued entry whose
`points` field does not convert to an integer (`{"points": "x"}`) raises
inside the migration loop, and the batch-level `except` returns `[]` — the
valid entry `"1": 5`, which alone normalizes to `(1, 5, 0)`, is lost with
it.  A single bad entry does abort the whole batch. -/
theorem C4_counterexample :
    load_legacy_json_for_import
        (.parsed (.jobj [("1", .jint 5), ("2", .jobj [("points", .jstr "x")])])) = [] ∧
    load_legacy_json_for_import (.parsed (.jobj [("1", .jint 5)])) = [(1, 5, 0)] := by
  decide

/-- C4 (amended): the migration load skips individually each entry whose key
does not parse as an integer id or whose value is neither an int nor an
object — returning exactly the per-entry normalization (`filterMap`) of the
snapshot — provided no object entry's field conversion raises; when a
conversion raises, the whole batch is aborted and `[]` is returned. -/
theorem C4_skip_invalid_entries (fields : List (String × JValue)) :
    (∀ rows : List (Int × Int × Int), loadRowsAux fields = some rows →
      load_legacy_json_for_import (.parsed (.jobj fields))
        = fields.filterMap normalizeEntrySpec) ∧
    (loadRowsAux fields = none →
      load_legacy_json_for_import (.parsed (.jobj fields)) = []) := by
  constructor
  · intro rows h
    simp only [load_legacy_json_for_import, h, Option.getD_some]
    exact loadRowsAux_eq_filterMap fields rows h
  · intro h
    simp [load_legacy_json_for_import, h]

theorem C4_witness :
    load_legacy_json_for_import (.parsed (.jobj [("1", .jint 5), ("abc", .jint 2),
        ("2", .jstr "zz"), ("3", .jobj [("score", .jint 7)])]))
      = [("1", JValue.jint 5), ("abc", JValue.jint 2), ("2", JValue.jstr "zz"),
          ("3", JValue.jobj [("score", JValue.jint 7)])].filterMap normalizeEntrySpec ∧
    [("1", JValue.jint 5), ("abc", JValue.jint 2), ("2", JValue.jstr "zz"),
        ("3", JValue.jobj [("score", JValue.jint 7)])].filterMap normalizeEntrySpec
      = [(1, 5, 0), (3, 7, 0)] :=
  ⟨(C4_skip_invalid_entries _).1 [(1, 5, 0), (3, 7, 0)] (by decide), by decide⟩

/-- C5: both legacy loaders normalize any entry identically: for a key that
parses as an integer id, the import rows of the singleton snapshot
`{k: v}` are exactly the `Init` ledger entries with the same
`(points, total_vouches)` payload — whatever shape `v` has (bare int, object
with `points`/`score`/`total_vouches`, skipped shape, or aborting shape) —
and the spec's three worked examples hold through `GetStats`. -/
theorem C5_normalization_agrees :
    (∀ (k : String) (uid : Int) (v : JValue), pyParseInt k = some uid →
      load_legacy_json_for_import (.parsed (.jobj [(k, v)]))
        = (JsonStorage.init (.parsed (.jobj [(k, v)]))).map
            (fun p => (uid, p.2.points, p.2.total_vouches))) ∧
    JsonStorage.get_stats (JsonStorage.init (.parsed (.jobj [("42", .jint 7)]))) 42
      = (7, 0) ∧
    JsonStorage.get_stats (JsonStorage.init (.parsed (.jobj [("42",
      .jobj [("points", .jint 7), ("total_vouches", .jint 3)])]))) 42 = (7, 3) ∧
    JsonStorage.get_stats (JsonStorage.init (.parsed (.jobj [("42",
      .jobj [("score", .jint 7)])]))) 42 = (7, 0) := by
  refine ⟨?_, by decide, by decide, by decide⟩
  intro k uid v hk
  cases v with
  | jint n =>
    simp [load_legacy_json_for_import, JsonStorage.init, loadRowsAux, initMigrate, hk, dictSet]
  | jbool b =>
    simp [load_legacy_json_for_import, JsonStorage.init, loadRowsAux, initMigrate, hk, dictSet]
  | jobj fs =>
    cases hp : legacyPoints fs with
    | none =>
      simp [load_legacy_json_for_import, JsonStorage.init, loadRowsAux, initMigrate, hk, hp]
    | some p =>
      cases htv : legacyVouches fs with
      | none =>
        simp [load_legacy_json_for_import, JsonStorage.init, loadRowsAux, initMigrate,
          hk, hp, htv]
      | some tv =>
        simp [load_legacy_json_for_import, JsonStorage.init, loadRowsAux, initMigrate,
          hk, hp, htv, dictSet]
  | jnull =>
    simp [load_legacy_json_for_import, JsonStorage.init, loadRowsAux, initMigrate, hk]
  | jstr s =>
    simp [load_legacy_json_for_import, JsonStorage.init, loadRowsAux, initMigrate, hk]
  | jarr xs =>
    simp [load_legacy_json_for_import, JsonStorage.init, loadRowsAux, initMigrate, hk]

theorem C5_witness :
    load_legacy_json_for_import (.parsed (.jobj [("42", .jint 7)]))
      = (JsonStorage.init (.parsed (.jobj [("42", .jint 7)]))).map
          (fun p => (42, p.2.points, p.2.total_vouches)) :=
  C5_normalization_agrees.1 "42" 42 (.jint 7) (by decide)

/-- C6: for every ledger state (keyed by integer user ids, as the data model
prescribes — for the File Backend this means every stored key parses as an
integer, which holds for every key the API writes) and every `limit ≥ 0`,
`Top(limit)` returns `(user_id, points)` pairs sorted by points descending, of
length `min(limit, number of entries)`; with `limit = 0` the result is empty;
when the ledger has at most `limit` entries, the result is all entries (as a
permutation of the ledger's pairs), fully sorted; an empty ledger yields an
empty sequence rather than an error.  Stated for both backends. -/
theorem C6_top_contract :
    (∀ (st : Ledger) (limit : Int), 0 ≤ limit →
      (∀ p ∈ st, (pyParseInt p.1).isSome) →
      ∃ l, JsonStorage.top st limit = some l ∧
        l.length = min limit.toNat st.length ∧
        List.Pairwise (fun a b : Int × Int => b.2 ≤ a.2) l ∧
        (st.length ≤ limit.toNat →
          l.Perm (st.map (fun p => ((pyParseInt p.1).getD 0, p.2.points)))) ∧
        (limit = 0 → l = [])) ∧
    (∀ (s : PgTable) (limit : Int), 0 ≤ limit →
      (PostgresStorage.top s limit).length = min limit.toNat s.length ∧
      List.Pairwise (fun a b : Int × Int => b.2 ≤ a.2) (PostgresStorage.top s limit) ∧
      (s.length ≤ limit.toNat →
        (PostgresStorage.top s limit).Perm (s.map (fun r => (r.user_id, r.points)))) ∧
      (limit = 0 → PostgresStorage.top s limit = [])) := by
  constructor
  · intro st limit hl hkeys
    have hperm : (List.insertionSort pointsDescRel st).Perm st :=
      List.perm_insertionSort _ _
    have hsorted : List.Pairwise pointsDescRel (List.insertionSort pointsDescRel st) :=
      List.sorted_insertionSort pointsDescRel st
    have hkeys' : ∀ p ∈ pyTake (List.insertionSort pointsDescRel st) limit,
        (pyParseInt p.1).isSome := by
      intro p hp
      rw [pyTake_nonneg _ hl] at hp
      exact hkeys p (hperm.mem_iff.1 (List.mem_of_mem_take hp))
    have htop : JsonStorage.top st limit
        = some ((pyTake (List.insertionSort pointsDescRel st) limit).map
            (fun p => ((pyParseInt p.1).getD 0, p.2.points))) := by
      unfold JsonStorage.top
      exact topRowsAux_eq_map hkeys'
    refine ⟨_, htop, ?_, ?_, ?_, ?_⟩
    · rw [List.length_map, pyTake_nonneg _ hl, List.length_take, hperm.length_eq]
    · refine List.pairwise_map.2 ?_
      rw [pyTake_nonneg _ hl]
      exact List.Pairwise.sublist (List.take_sublist _ _) hsorted
    · intro hlen
      rw [pyTake_nonneg _ hl,
        List.take_of_length_le (by rw [hperm.length_eq]; exact hlen)]
      exact hperm.map _
    · intro h0
      subst h0
      simp [pyTake]
  · intro s limit hl
    have hperm : (List.insertionSort pgPointsDescRel s).Perm s :=
      List.perm_insertionSort _ _
    have hsorted : List.Pairwise pgPointsDescRel (List.insertionSort pgPointsDescRel s) :=
      List.sorted_insertionSort pgPointsDescRel s
    refine ⟨?_, ?_, ?_, ?_⟩
    · unfold PostgresStorage.top
      rw [List.length_map, List.length_take, hperm.length_eq]
    · refine List.pairwise_map.2 ?_
      exact List.Pairwise.sublist (List.take_sublist _ _) hsorted
    · intro hlen
      unfold PostgresStorage.top
      rw [List.take_of_length_le (by rw [hperm.length_eq]; exact hlen)]
      exact hperm.map _
    · intro h0
      subst h0
      simp [PostgresStorage.top]

theorem C6_witness :
    (∃ l, JsonStorage.top [("1", ⟨5, 0⟩), ("2", ⟨9, 0⟩)] 1 = some l ∧ l.length = 1) ∧
    (PostgresStorage.top [⟨1, 5, 0⟩, ⟨2, 9, 0⟩] 1).length = 1 := by
  constructor
  · obtain ⟨l, htop, hlen, -, -⟩ :=
      C6_top_contract.1 [("1", ⟨5, 0⟩), ("2", ⟨9, 0⟩)] 1 (by decide) (by decide)
    refine ⟨l, htop, ?_⟩
    rw [hlen]
    decide
  · have h := (C6_top_contract.2 [⟨1, 5, 0⟩, ⟨2, 9, 0⟩] 1 (by decide)).1
    rw [h]
    decide

/-- C7: `AddPoints(u, delta)` leaves `total_vouches` unchanged for `u` and
leaves every other user's observable entry unchanged, in both backends —
only the points counter of `u` is modified. -/
theorem C7_add_points_frame :
    (∀ (st : Ledger) (u d : Int),
      (JsonStorage.get_stats (JsonStorage.add_points st u d).1 u).2
        = (JsonStorage.get_stats st u).2 ∧
      ∀ w : Int, w ≠ u →
        JsonStorage.get_stats (JsonStorage.add_points st u d).1 w
          = JsonStorage.get_stats st w) ∧
    (∀ (s : PgTable) (u d : Int),
      (PostgresStorage.get_stats (PostgresStorage.add_points s u d).1 u).2
        = (PostgresStorage.get_stats s u).2 ∧
      ∀ w : Int, w ≠ u →
        PostgresStorage.get_stats (PostgresStorage.add_points s u d).1 w
          = PostgresStorage.get_stats s w) := by
  constructor
  · intro st u d
    constructor
    · simp only [JsonStorage.add_points, JsonStorage.get_stats, dictGet_dictSet_self]
      cases hg : dictGet st (toString u) <;> simp [hg]
    · intro w hw
      have hkey : toString w ≠ toString u := fun h => hw (toString_int_inj h)
      simp only [JsonStorage.add_points, JsonStorage.get_stats]
      rw [dictGet_dictSet_ne _ _ _ _ hkey]
  · intro s u d
    constructor
    · cases hf : pgFind s u with
      | some q =>
        have hq : q.user_id = u := by simpa using List.find?_some hf
        rw [pg_get_stats_eq, pg_get_stats_eq, pgFind_add_points_some hf u, hf]
        simp [hq]
      | none =>
        rw [pg_get_stats_eq, pg_get_stats_eq,
          congrArg Prod.fst (pg_add_points_state_none hf), pgFind_append_single, hf]
        simp
    · intro w hw
      cases hf : pgFind s u with
      | some q =>
        rw [pg_get_stats_eq, pg_get_stats_eq, pgFind_add_points_some hf w]
        cases hfw : pgFind s w with
        | none => rfl
        | some q' =>
          have hq' : q'.user_id = w := by simpa using List.find?_some hfw
          simp [hq', hw]
      | none =>
        rw [pg_get_stats_eq, pg_get_stats_eq,
          congrArg Prod.fst (pg_add_points_state_none hf), pgFind_append_single]
        have hne : ((⟨u, 0, 0⟩ : PgRow).user_id == w) = false := by
          simp only [beq_eq_false_iff_ne]
          exact fun h => hw h.symm
        simp [hne]

theorem C7_witness :
    ((JsonStorage.get_stats (JsonStorage.add_points [("1", ⟨2, 3⟩)] 1 4).1 1).2
        = (JsonStorage.get_stats [("1", ⟨2, 3⟩)] 1).2) ∧
    (JsonStorage.get_stats (JsonStorage.add_points [("1", ⟨2, 3⟩)] 1 4).1 2
        = JsonStorage.get_stats [("1", ⟨2, 3⟩)] 2) ∧
    ((PostgresStorage.get_stats (PostgresStorage.add_points [⟨1, 2, 3⟩] 1 4).1 1).2
        = (PostgresStorage.get_stats [⟨1, 2, 3⟩] 1).2) ∧
    (PostgresStorage.get_stats (PostgresStorage.add_points [⟨1, 2, 3⟩] 1 4).1 2
        = PostgresStorage.get_stats [⟨1, 2, 3⟩] 2) :=
  ⟨(C7_add_points_frame.1 [("1", ⟨2, 3⟩)] 1 4).1,
   (C7_add_points_frame.1 [("1", ⟨2, 3⟩)] 1 4).2 2 (by decide),
   (C7_add_points_frame.2 [⟨1, 2, 3⟩] 1 4).1,
   (C7_add_points_frame.2 [⟨1, 2, 3⟩] 1 4).2 2 (by decide)⟩

/-- C8: `BulkUpsert` has overwrite, not additive, semantics: each row replaces
the stored `(points, total_vouches)` of its `user_id` outright (first
conjunct), and therefore running `BulkUpsert(R)` twice from any starting
table (whose primary-key column is, as the constraint guarantees, duplicate
free) produces exactly the same final state as running it once — re-running
the migration import is idempotent. -/
theorem C8_bulk_upsert_idempotent :
    (∀ (s : PgTable) (u p v : Int), lookupPV (pgUpsertRow s (u, p, v)) u = some (p, v)) ∧
    (∀ (s : PgTable), (keysOf s).Nodup → ∀ rows : List (Int × Int × Int),
      PostgresStorage.bulk_upsert (PostgresStorage.bulk_upsert s rows) rows
        = PostgresStorage.bulk_upsert s rows) := by
  constructor
  · intro s u p v
    rw [lookupPV_pgUpsertRow]
    simp
  · intro s h rows
    apply pgTable_ext
    · exact keysOf_bulk_of_mem rows _ (rows_keys_mem_bulk rows s)
    · intro u
      rw [lookupPV_bulk rows (PostgresStorage.bulk_upsert s rows) u,
        lookupPV_bulk rows s u]
      cases lastVal rows u with
      | some pv => rfl
      | none => rfl
    · exact nodup_keysOf_bulk rows (nodup_keysOf_bulk rows h)

theorem C8_witness :
    lookupPV (pgUpsertRow [⟨1, 10, 2⟩] (1, 3, 4)) 1 = some (3, 4) ∧
    (keysOf [⟨1, 10, 2⟩]).Nodup ∧
    PostgresStorage.bulk_upsert (PostgresStorage.bulk_upsert [⟨1, 10, 2⟩]
        [(1, 3, 4), (2, 5, 6), (1, 7, 8)]) [(1, 3, 4), (2, 5, 6), (1, 7, 8)]
      = PostgresStorage.bulk_upsert [⟨1, 10, 2⟩] [(1, 3, 4), (2, 5, 6), (1, 7, 8)] :=
  ⟨C8_bulk_upsert_idempotent.1 [⟨1, 10, 2⟩] 1 3 4, by decide,
   C8_bulk_upsert_idempotent.2 [⟨1, 10, 2⟩] (by decide) [(1, 3, 4), (2, 5, 6), (1, 7, 8)]⟩

/-- C9: File Backend `Init` never fails and always leaves a well-formed
ledger: a missing snapshot file gives the empty ledger, an unparseable file
gives the empty ledger, and a parse result of any top-level shape other than
an object likewise gives the empty ledger rather than an error. -/
theorem C9_init_never_fails :
    JsonStorage.init .missing = [] ∧
    JsonStorage.init .unparseable = [] ∧
    ∀ v : JValue, v.isObj = false → JsonStorage.init (.parsed v) = [] := by
  refine ⟨rfl, rfl, ?_⟩
  intro v hv
  cases v with
  | jobj fields => exact absurd hv (by simp [JValue.isObj])
  | jnull => rfl
  | jbool b => rfl
  | jint n => rfl
  | jstr s => rfl
  | jarr xs => rfl

theorem C9_witness :
    JsonStorage.init .missing = [] ∧ JsonStorage.init (.parsed (.jarr [])) = [] :=
  ⟨C9_init_never_fails.1, C9_init_never_fails.2.2 (.jarr []) rfl⟩

/-- C10: read-your-write consistency of the File Backend: the pair returned
by `add_vouch` is exactly what `get_stats` then reads for that user, and the
value returned by `add_points` is exactly what `get_points` then reads. -/
theorem C10_read_your_write :
    ∀ (st : Ledger) (u pd vd d : Int),
      JsonStorage.get_stats (JsonStorage.add_vouch st u pd vd).1 u
        = (JsonStorage.add_vouch st u pd vd).2 ∧
      JsonStorage.get_points (JsonStorage.add_points st u d).1 u
        = (JsonStorage.add_points st u d).2 :=
  fun st u pd vd d => ⟨add_vouch_read_back st u pd vd, add_points_read_back st u d⟩

end Vouchy
